import Mathlib

/-!
Verification of the RAG pipeline of `cai_notion_assistant`.

This file is a shallow embedding of the core of the repository:

* `src/indexing/embed.py` — `chunk_text`, `load_embeddings`;
* `src/rag_agent/answer.py` — `cosine_similarity`, `retrieve_top_chunks`,
  `generate_answer`, `load_embeddings`;
* `src/embedding_providers.py` — `embed_batch` of both providers and
  `get_embedding_provider("auto")`;
* `src/llm_providers.py` — `generate_answer` of both LLM providers.

Python strings are modelled as `List Char`.  Python slice and `str.rfind`
semantics (negative index normalisation, clamping, `-1` for "not found")
are modelled explicitly, because `chunk_text` relies on them.  Numeric
vector entries are modelled as exact real numbers; external services
(embedding endpoints, chat completions, the file system) are modelled as
explicit oracle arguments describing the outcome of each call.
-/

set_option maxRecDepth 100000

namespace CaiNotion

/-- Python index normalisation for a slice bound: a negative index counts
from the end of the string and is clamped to `0`; a nonnegative index is
clamped to the length. -/
def pyIdx (len : Nat) (i : Int) : Nat :=
  if i < 0 then (if i + len < 0 then 0 else (i + len).toNat) else min i.toNat len

/-- Python slice `s[a:b]` on a string modelled as `List Char`. -/
def pySlice (s : List Char) (a b : Int) : List Char :=
  (s.take (pyIdx s.length b)).drop (pyIdx s.length a)

/-- Python `str.rfind(c)` for a single character: the largest index at which
`c` occurs, or `-1` when it does not occur. -/
def rfindChar (s : List Char) (c : Char) : Int :=
  match s with
  | [] => -1
  | a :: t =>
    let r := rfindChar t c
    if r ≥ 0 then r + 1 else if a = c then 0 else -1

/-- The boundary computation of `chunk_text` (`src/indexing/embed.py`
lines 24–29): look in `text[end-100:end]` for the right-most sentence
terminator and, if its index is positive, shorten `end` to just past it.
Note the window width is the literal `100` from the source, independent of
the `overlap` parameter. -/
def newEnd (text : List Char) (maxLength : Nat) (start : Int) : Int :=
  let e : Int := start + maxLength
  let bs := pySlice text (e - 100) e
  let se := max (rfindChar bs '.') (max (rfindChar bs '!') (rfindChar bs '?'))
  if 0 < se then e - 100 + se + 1 else e

/-- The `while start < len(text)` loop of `chunk_text`, with explicit fuel:
the source loop has no termination guarantee (and indeed diverges on some
inputs, see `chunkLoop_diverges`), so the embedding returns `none` when the
fuel runs out. -/
def chunkLoop (text : List Char) (maxLength overlap : Nat) :
    Nat → Int → List (List Char) → Option (List (List Char))
  | 0, _, _ => none
  | fuel + 1, start, acc =>
    if start < (text.length : Int) then
      if (text.length : Int) ≤ start + maxLength then
        some (acc ++ [pySlice text start text.length])
      else
        chunkLoop text maxLength overlap fuel (newEnd text maxLength start - overlap)
          (acc ++ [pySlice text start (newEnd text maxLength start)])
    else some acc

/-- `chunk_text(text, max_length, overlap)` with an explicit fuel bound on
the number of loop iterations. -/
def chunkTextF (fuel : Nat) (text : List Char) (maxLength overlap : Nat) :
    Option (List (List Char)) :=
  if text.length ≤ maxLength then some [text]
  else chunkLoop text maxLength overlap fuel 0 []

/-- `chunk_text` with the canonical fuel `text.length + 1`: in the
well-behaved regime every iteration advances `start` by at least one
character, so this fuel is never exhausted there. -/
def chunk_text (text : List Char) (maxLength overlap : Nat) :
    Option (List (List Char)) :=
  chunkTextF (text.length + 1) text maxLength overlap

/-- Concatenate chunks after discarding the last `overlap` characters of
every chunk except the last (the reconstruction operation of the spec). -/
def overlapJoin (overlap : Nat) : List (List Char) → List Char
  | [] => []
  | [c] => c
  | c :: c2 :: cs => c.take (c.length - overlap) ++ overlapJoin overlap (c2 :: cs)

/-- A 101-character text whose only sentence terminator sits at index 49:
with `max_length = 100` and `overlap = 50` the boundary snap sets
`end = 50` and then `start = end - overlap = 0` again, so the `while` loop
of `chunk_text` never advances. -/
def divergingText : List Char :=
  List.replicate 49 'a' ++ '.' :: List.replicate 51 'a'

/-- The index produced by the boundary search of the first loop iteration:
the right-most sentence terminator inside the last 100 characters of the
first window `text[0:max_length]` (`-1` if there is none). -/
def boundaryIdx (text : List Char) (maxLength : Nat) : Int :=
  max (rfindChar ((text.take maxLength).drop (maxLength - 100)) '.')
    (max (rfindChar ((text.take maxLength).drop (maxLength - 100)) '!')
      (rfindChar ((text.take maxLength).drop (maxLength - 100)) '?'))

/-- Modelled from the spec for comparison with the code (claim C8): a
variant of `chunk_text` whose boundary search window is the last
`overlap` characters of the current window, as the claim describes,
instead of the hard-coded 100 of the source. -/
def newEndSpecC8 (text : List Char) (maxLength overlap : Nat) (start : Int) : Int :=
  let e : Int := start + maxLength
  let bs := pySlice text (e - overlap) e
  let se := max (rfindChar bs '.') (max (rfindChar bs '!') (rfindChar bs '?'))
  if 0 < se then e - overlap + se + 1 else e

/-- The loop of the claim-C8 variant chunker. -/
def chunkLoopSpecC8 (text : List Char) (maxLength overlap : Nat) :
    Nat → Int → List (List Char) → Option (List (List Char))
  | 0, _, _ => none
  | fuel + 1, start, acc =>
    if start < (text.length : Int) then
      if (text.length : Int) ≤ start + maxLength then
        some (acc ++ [pySlice text start text.length])
      else
        chunkLoopSpecC8 text maxLength overlap fuel
          (newEndSpecC8 text maxLength overlap start - overlap)
          (acc ++ [pySlice text start (newEndSpecC8 text maxLength overlap start)])
    else some acc

/-- The claim-C8 variant chunker (overlap-wide boundary window). -/
def chunkTextSpecC8 (text : List Char) (maxLength overlap : Nat) :
    Option (List (List Char)) :=
  if text.length ≤ maxLength then some [text]
  else chunkLoopSpecC8 text maxLength overlap (text.length + 1) 0 []

/-- A 400-character text whose only sentence terminator sits at index 170:
inside the last 150 characters of the first window `text[0:300]` but not
inside its last 100 characters. -/
def windowCexText : List Char := List.replicate 170 'a' ++ '.' :: List.replicate 229 'a'

/-! ## Data model: embedding records (`src/indexing/embed.py` lines 140–147)

A persisted record carries a page title, the chunk text, and the embedding
vector.  The remaining metadata fields (`chunk_index`, `source`,
`provider`) play no role in the verified operations and are omitted. -/

structure EmbeddingRecord where
  title : String
  chunk : String
  embedding : List ℝ

/-! ## LLM providers (`src/llm_providers.py`) and `generate_answer`
(`src/rag_agent/answer.py` lines 43–67)

Messages are modelled as `List Char`.  The single
`chat.completions.create` call a provider makes is modelled by a
`ChatOutcome` oracle: `Except.ok content` when the remote call returns
`content`, `Except.error e` when it raises an exception rendered as `e`.
The `…T` variants additionally count how many chat calls were made. -/

/-- Outcome of the one remote chat-completion call a provider would make. -/
def ChatOutcome : Type := Except (List Char) (List Char)

/-- The no-context message of `OpenAILLMProvider.generate_answer`
(`src/llm_providers.py` line 44). -/
def noContextMsgOpenAI : List Char :=
  String.toList "I couldn't find relevant information to answer your question. Please try rephrasing or check if the data has been indexed."

/-- The no-context message of `GroqLLMProvider.generate_answer`
(`src/llm_providers.py` line 99). -/
def noContextMsgGroq : List Char :=
  String.toList "I couldn't find relevant information to answer your question. Please try rephrasing or check if the data has been indexed."

/-- The error-detection string used by `generate_answer`
(`src/rag_agent/answer.py` line 51). -/
def openaiErrCheck : List Char := String.toList "Error generating answer with OpenAI"

/-- `OpenAILLMProvider`'s error message head: the f-string
`"Error generating answer with OpenAI: {e}"` up to the exception text. -/
def openaiErrHead : List Char := openaiErrCheck ++ [':', ' ']

/-- `GroqLLMProvider`'s error message head. -/
def groqErrHead : List Char := String.toList "Error generating answer with Groq" ++ [':', ' ']

/-- `OpenAILLMProvider.generate_answer`, instrumented with the number of
chat-completion calls made. -/
def openaiGenerateT (chat : ChatOutcome) (_query : List Char)
    (chunks : List EmbeddingRecord) : (List Char) × Nat :=
  match chunks with
  | [] => (noContextMsgOpenAI, 0)
  | _ :: _ =>
    match chat with
    | .ok content => (content, 1)
    | .error e => (openaiErrHead ++ e, 1)

/-- `GroqLLMProvider.generate_answer`, instrumented with the number of
chat-completion calls made. -/
def groqGenerateT (chat : ChatOutcome) (_query : List Char)
    (chunks : List EmbeddingRecord) : (List Char) × Nat :=
  match chunks with
  | [] => (noContextMsgGroq, 0)
  | _ :: _ =>
    match chat with
    | .ok content => (content, 1)
    | .error e => (groqErrHead ++ e, 1)

/-- `OpenAILLMProvider.generate_answer`'s return value. -/
def openaiGenerate (chat : ChatOutcome) (query : List Char)
    (chunks : List EmbeddingRecord) : List Char :=
  (openaiGenerateT chat query chunks).1

/-- `GroqLLMProvider.generate_answer`'s return value. -/
def groqGenerate (chat : ChatOutcome) (query : List Char)
    (chunks : List EmbeddingRecord) : List Char :=
  (groqGenerateT chat query chunks).1

/-- The sentinel failure message of `generate_answer`
(`src/rag_agent/answer.py` line 67). -/
def failMsg : List Char :=
  String.toList "❌ No LLM provider available or all providers failed. Please check your API keys and quotas."

/-- Trace of one `generate_answer` run: the returned message plus how
often each provider's generation was invoked. -/
structure GenTrace where
  answer : List Char
  openaiCalls : Nat
  groqCalls : Nat
  deriving DecidableEq

/-- `generate_answer(query, context_chunks, model_preference)` from
`src/rag_agent/answer.py` lines 43–67, instrumented with provider-call
counts.  The two `get_llm_provider` calls are modelled by the two
`Option ChatOutcome` arguments (`none` = the provider is unavailable);
each provider's own chat call is modelled by its `ChatOutcome`.  The
providers' `generate_answer` methods never raise (they catch internally),
so the `except` arms of the source cannot fire and the model is total. -/
def generateAnswerT (openaiProv groqProv : Option ChatOutcome)
    (query : List Char) (chunks : List EmbeddingRecord)
    (pref : String) : GenTrace :=
  let groqPart : GenTrace :=
    match groqProv with
    | some chat => ⟨groqGenerate chat query chunks, 0, 1⟩
    | none => ⟨failMsg, 0, 0⟩
  if pref = "auto" ∨ pref = "openai" then
    match openaiProv with
    | some chat =>
      let result := openaiGenerate chat query chunks
      if openaiErrCheck.isPrefixOf result then
        ⟨groqPart.answer, groqPart.openaiCalls + 1, groqPart.groqCalls⟩
      else ⟨result, 1, 0⟩
    | none => groqPart
  else groqPart

/-- `generate_answer`'s returned message. -/
def generate_answer (openaiProv groqProv : Option ChatOutcome)
    (query : List Char) (chunks : List EmbeddingRecord)
    (pref : String) : List Char :=
  (generateAnswerT openaiProv groqProv query chunks pref).answer

/-! ## Embedding providers (`src/embedding_providers.py`)

The remote embedding endpoint is modelled by an oracle
`String → Option (List ℝ)` giving, for each text, either the returned
vector or `none` when the underlying call raises.  The local model's
batch `encode` is an oracle `List String → Option (List (List ℝ))`. -/

/-- `OpenAIEmbeddingProvider.embed_text` (lines 54–65): on an exception
the provider prints and returns the empty list. -/
def openaiEmbedText (oracle : String → Option (List ℝ)) (text : String) : List ℝ :=
  match oracle text with
  | some v => v
  | none => []

/-- `OpenAIEmbeddingProvider.embed_batch` (lines 67–76): each text is
embedded independently; a falsy (empty) per-text result is replaced by the
all-zero vector of dimension 1536 (the model's known output dimension). -/
def openaiEmbedBatch (oracle : String → Option (List ℝ)) (texts : List String) :
    List (List ℝ) :=
  texts.map fun t =>
    let embedding := openaiEmbedText oracle t
    if embedding.isEmpty then List.replicate 1536 (0 : ℝ) else embedding

/-- `LocalEmbeddingProvider.embed_batch` (lines 103–110): the whole batch
is encoded in one call; if that call raises, the provider prints and
returns the empty list. -/
def localEmbedBatch (encodeOracle : List String → Option (List (List ℝ)))
    (texts : List String) : List (List ℝ) :=
  match encodeOracle texts with
  | some vs => vs
  | none => []

/-! ## Provider auto-selection (`src/embedding_providers.py` lines 137–162) -/

/-- The world `get_embedding_provider("auto")` runs in:
credentials/import availability, the outcome of each provider's
constructor, and the outcome of the OpenAI liveness probe
(`embed_text("test")`, whose value is `[]` when the underlying call
raised).  `localProbeResult` is what `embed_text("test")` on the local
provider would return; the source never consults it. -/
structure EmbEnv where
  openaiKey : Option String
  openaiAvailable : Bool
  stAvailable : Bool
  openaiInit : Except String Unit
  openaiProbeResult : List ℝ
  localInit : Except String Unit
  localProbeResult : List ℝ

/-- The two concrete embedding providers. -/
inductive EmbProvider where
  | openaiProv
  | localProv
  deriving DecidableEq

/-- The local fall-through arm of the `auto` branch: if
`sentence-transformers` imported, construct the local provider and return
it — with no liveness probe; on a constructor exception (or a missing
dependency) return `None`. -/
def tryLocalProvider (env : EmbEnv) : Option EmbProvider :=
  if env.stAvailable then
    match env.localInit with
    | .ok _ => some .localProv
    | .error _ => none
  else none

/-- Python truthiness of `os.getenv(...)`: present and non-empty. -/
def truthyKey : Option String → Bool
  | some k => k != ""
  | none => false

/-- `get_embedding_provider("auto")`: try OpenAI first (requires a truthy
key and a successful import), probe it with `embed_text("test")`, commit
to it only if the probe returned a truthy (non-empty) vector; on any
failure fall through to the local provider. -/
def getEmbeddingProviderAuto (env : EmbEnv) : Option EmbProvider :=
  if truthyKey env.openaiKey && env.openaiAvailable then
    match env.openaiInit with
    | .ok _ =>
      if env.openaiProbeResult.isEmpty then tryLocalProvider env
      else some .openaiProv
    | .error _ => tryLocalProvider env
  else tryLocalProvider env

/-- Modelled from the spec (claim C9): the local fall-through arm as the
claim describes it, with a liveness probe before committing. -/
def tryLocalProviderSpecC9 (env : EmbEnv) : Option EmbProvider :=
  if env.stAvailable then
    match env.localInit with
    | .ok _ =>
      if env.localProbeResult.isEmpty then none else some .localProv
    | .error _ => none
  else none

/-- Modelled from the spec for comparison with the code (claim C9): the
claim's described selection, in which *each* candidate — the local one
included — is liveness-probed by embedding a trivial string before being
committed to, and any failure falls through. -/
def getEmbeddingProviderAutoSpecC9 (env : EmbEnv) : Option EmbProvider :=
  if truthyKey env.openaiKey && env.openaiAvailable then
    match env.openaiInit with
    | .ok _ =>
      if env.openaiProbeResult.isEmpty then tryLocalProviderSpecC9 env
      else some .openaiProv
    | .error _ => tryLocalProviderSpecC9 env
  else tryLocalProviderSpecC9 env

/-- An environment with no OpenAI key, a constructible local provider
whose embeddings nevertheless all fail (its probe would return `[]`). -/
def deadLocalEnv : EmbEnv :=
  { openaiKey := none
    openaiAvailable := false
    stAvailable := true
    openaiInit := Except.ok ()
    openaiProbeResult := []
    localInit := Except.ok ()
    localProbeResult := [] }

/-! ## Embedding store loading (claim C7)

`load_embeddings` exists twice: once at the top of the indexing path
(`src/indexing/embed.py` lines 53–60, catching only `FileNotFoundError`)
and once at the top of the query path (`src/rag_agent/answer.py` lines
69–87, catching `FileNotFoundError` and any other `Exception`).  The
underlying file is modelled by its three relevant states. -/

/-- State of the persisted embeddings file. -/
inductive StoreState where
  | absent
  | malformed
  | wellFormed (records : List EmbeddingRecord)

/-- The indexing-path `load_embeddings`: `FileNotFoundError` is caught and
yields `[]`; a parse error from `json.load` on malformed contents
propagates to the caller (modelled as `Except.error`). -/
def load_embeddings_indexing (st : StoreState) : Except String (List EmbeddingRecord) :=
  match st with
  | .absent => Except.ok []
  | .malformed => Except.error "JSONDecodeError"
  | .wellFormed records => Except.ok records

/-- The query-path `load_embeddings`: `FileNotFoundError` and every other
exception (parse errors included) are caught and yield `[]`. -/
def load_embeddings_query (st : StoreState) : Except String (List EmbeddingRecord) :=
  match st with
  | .absent => Except.ok []
  | .malformed => Except.ok []
  | .wellFormed records => Except.ok records

/-! ## Cosine similarity and retrieval (`src/rag_agent/answer.py` lines 11–28)

Vector entries are exact reals.  `cosine_similarity` is modelled twice,
from the same source formula `np.dot(a,b) / (norm(a) * norm(b))`:

* `cosine_similarity_checked` — the faithful model: `np.dot` raises
  `ValueError` on mismatched 1-D shapes (modelled as `Except.error`), and
  a zero denominator makes the float division produce a non-finite value
  (`nan`) instead of raising (modelled as `Option.none`);
* `cosine_similarity` — the total idealisation, with Lean's `x / 0 = 0`
  convention and a `zipWith`-truncated dot product.  Every theorem that
  relies on it restricts to the guarded domain (equal lengths, non-zero
  vectors) on which it provably agrees with the checked model
  (`cosine_checked_eq_ok`): outside that domain the source raises or
  yields `nan`, and only the checked model speaks for it. -/

/-- `np.dot` on two equal-length 1-D arrays (the idealised total value:
`zipWith` truncates at the shorter argument). -/
noncomputable def dotList (a b : List ℝ) : ℝ := (List.zipWith (· * ·) a b).sum

/-- Sum of squares of the entries. -/
noncomputable def sumSq (a : List ℝ) : ℝ := (a.map fun x => x * x).sum

/-- `np.linalg.norm`: the Euclidean norm. -/
noncomputable def normL2 (a : List ℝ) : ℝ := Real.sqrt (sumSq a)

/-- `cosine_similarity(vec1, vec2)` — the idealised total value, meaningful
only on the guarded domain where it agrees with
`cosine_similarity_checked` (see `cosine_checked_eq_ok`). -/
noncomputable def cosine_similarity (a b : List ℝ) : ℝ :=
  dotList a b / (normL2 a * normL2 b)

/-- IEEE division as observed through "is the result an ordinary finite
number": a zero divisor produces a non-finite value (`none`), silently. -/
noncomputable def floatDiv (x y : ℝ) : Option ℝ :=
  if y = 0 then none else some (x / y)

/-- `cosine_similarity` together with numpy's error behaviour. -/
noncomputable def cosine_similarity_checked (a b : List ℝ) :
    Except String (Option ℝ) :=
  if a.length = b.length then
    Except.ok (floatDiv (dotList a b) (normL2 a * normL2 b))
  else Except.error "ValueError"

/-! ## Top-k retrieval (`src/rag_agent/answer.py` lines 17–28)

`retrieve_top_chunks` scores every record, sorts descending by score with
Python's stable `list.sort(key=..., reverse=True)`, and returns the first
`top_k` records.  A stable descending sort is modelled by insertion sort
under the reflexive relation "score at least as large": two stable sorts
of the same keyed list agree, so this is the canonical model.

The scoring loop is modelled twice.  `retrieveScoresChecked` is the
faithful model of the `for` loop (lines 22–25): each iteration calls
`cosine_similarity`, so a `ValueError` from a mismatched-length pair
propagates out of `retrieve_top_chunks` before any sorting happens, and a
zero vector puts a `nan` key (`none`) into the scored list, under which
the sort guarantees no order.  `scoreList` and the sort-based
`retrieve_top_chunks` below are the idealisation; the retrieval theorem
restricts to the guarded domain (equal-length, non-zero vectors) on which
`retrieveScoresChecked` provably returns exactly the idealised scores, so
the idealised sort describes the source's behaviour there. -/

/-- The scored list `[(similarity, record), ...]` built by the loop. -/
noncomputable def scoreList (q : List ℝ) (embeddings : List EmbeddingRecord) :
    List (ℝ × EmbeddingRecord) :=
  embeddings.map fun e => (cosine_similarity q e.embedding, e)

/-- "Comes no later in descending score order": the sort relation of
`scores.sort(key=lambda x: x[0], reverse=True)`. -/
def simGE (a b : ℝ × EmbeddingRecord) : Prop := b.1 ≤ a.1

noncomputable instance : DecidableRel simGE := fun a b => Real.decidableLE b.1 a.1

instance : IsTotal (ℝ × EmbeddingRecord) simGE := ⟨fun a b => le_total b.1 a.1⟩

instance : IsTrans (ℝ × EmbeddingRecord) simGE :=
  ⟨fun _ _ _ h1 h2 => le_trans h2 h1⟩

/-- `retrieve_top_chunks(query_embedding, embeddings, top_k)` — the
idealised model, describing the source only on the guarded domain where
`retrieveScoresChecked` returns the same finite scores (the source raises
`ValueError` on a mismatched-length record and sorts `nan` keys on a zero
vector; see `retrieve_mismatched_raises_cex`). -/
noncomputable def retrieve_top_chunks (q : List ℝ)
    (embeddings : List EmbeddingRecord) (k : Nat) : List EmbeddingRecord :=
  match embeddings with
  | [] => []
  | _ :: _ =>
    ((List.insertionSort simGE (scoreList q embeddings)).take k).map Prod.snd

/-- The full descending-sorted record list, before truncation to `top_k`. -/
noncomputable def retrieveSortedAll (q : List ℝ)
    (embeddings : List EmbeddingRecord) : List EmbeddingRecord :=
  (List.insertionSort simGE (scoreList q embeddings)).map Prod.snd

/-- Records whose similarity to `q` equals `v`, in order. -/
noncomputable def filterBySim (q : List ℝ) (v : ℝ) (l : List EmbeddingRecord) :
    List EmbeddingRecord :=
  l.filter fun e => decide (cosine_similarity q e.embedding = v)

/-- The scoring loop of `retrieve_top_chunks` (`src/rag_agent/answer.py`
lines 22–25), with numpy's behaviour: each iteration computes
`cosine_similarity(query_embedding, record.embedding)`; the first
`ValueError` (mismatched lengths) propagates out of the whole call, and a
zero vector yields a `nan` key (`none`). -/
noncomputable def retrieveScoresChecked (q : List ℝ)
    (embeddings : List EmbeddingRecord) :
    Except String (List (Option ℝ × EmbeddingRecord)) :=
  match embeddings with
  | [] => Except.ok []
  | e :: es =>
    match cosine_similarity_checked q e.embedding, retrieveScoresChecked q es with
    | Except.error msg, _ => Except.error msg
    | Except.ok _, Except.error msg => Except.error msg
    | Except.ok s, Except.ok rest => Except.ok ((s, e) :: rest)

/-- A concrete query vector for the retrieval witness. -/
noncomputable def sampleQuery : List ℝ := [1, 0]

/-- Two concrete records on the guarded domain (equal-length, non-zero
embeddings) for the retrieval witness. -/
noncomputable def sampleRecords : List EmbeddingRecord :=
  [⟨"a", "a", [1, 0]⟩, ⟨"b", "b", [0, 1]⟩]

/-! ## Lemmas and claim theorems -/

lemma pyIdx_natCast (len a : Nat) : pyIdx len (a : Int) = min a len := by
  simp [pyIdx]

lemma pySlice_natCast (s : List Char) (a b : Nat) :
    pySlice s (a : Int) (b : Int) = (s.take b).drop a := by
  unfold pySlice
  rw [pyIdx_natCast, pyIdx_natCast]
  have htake : s.take (min b s.length) = s.take b := by
    rcases le_total b s.length with h | h
    · rw [min_eq_left h]
    · rw [min_eq_right h, List.take_length, List.take_of_length_le h]
  rw [htake]
  rcases le_total a s.length with h | h
  · rw [min_eq_left h]
  · rw [min_eq_right h]
    have h1 : (s.take b).length ≤ s.length := by
      rw [List.length_take]; omega
    rw [List.drop_eq_nil_of_le h1, List.drop_eq_nil_of_le (le_trans h1 h)]

lemma neg_one_le_rfindChar (s : List Char) (c : Char) : -1 ≤ rfindChar s c := by
  induction s with
  | nil => simp [rfindChar]
  | cons a t ih =>
    simp only [rfindChar]
    split
    · omega
    · split <;> omega

lemma rfindChar_lt_length (s : List Char) (c : Char) :
    rfindChar s c < (s.length : Int) := by
  induction s with
  | nil => simp [rfindChar]
  | cons a t ih =>
    simp only [rfindChar, List.length_cons]
    push_cast
    split
    · omega
    · split <;> omega

/-- In the regime `100 ≤ maxLength`, `start + maxLength < text.length`, the
boundary-adjusted end is a natural number strictly between
`start + maxLength - 99` (exclusive lower bound `start + maxLength - 98 - 1`)
and `start + maxLength`. -/
lemma newEnd_bounds (text : List Char) (maxLength start : Nat)
    (h100 : 100 ≤ maxLength) (hlt : start + maxLength < text.length) :
    ∃ en : Nat, newEnd text maxLength (start : Int) = (en : Int) ∧
      start + maxLength - 98 ≤ en ∧ en ≤ start + maxLength := by
  simp only [newEnd]
  have he : (start : Int) + (maxLength : Int) - 100 = ((start + maxLength - 100 : Nat) : Int) := by
    omega
  have he2 : (start : Int) + (maxLength : Int) = ((start + maxLength : Nat) : Int) := by omega
  rw [he, he2, pySlice_natCast]
  set bs := (text.take (start + maxLength)).drop (start + maxLength - 100) with hbs
  have hlen : bs.length = 100 := by
    rw [hbs, List.length_drop, List.length_take]
    omega
  set se := max (rfindChar bs '.') (max (rfindChar bs '!') (rfindChar bs '?')) with hse
  have hub : se < 100 := by
    have h1 := rfindChar_lt_length bs '.'
    have h2 := rfindChar_lt_length bs '!'
    have h3 := rfindChar_lt_length bs '?'
    rw [hlen] at h1 h2 h3
    simp only [hse]
    omega
  have hlb : -1 ≤ se := by
    have h1 := neg_one_le_rfindChar bs '.'
    simp only [hse]
    omega
  by_cases hpos : 0 < se
  · rw [if_pos hpos]
    exact ⟨start + maxLength - 100 + se.toNat + 1, by omega, by omega, by omega⟩
  · rw [if_neg hpos]
    exact ⟨start + maxLength, by omega, by omega, by omega⟩

/-- Splitting a suffix at an intermediate point. -/
lemma take_drop_append (text : List Char) (a b : Nat) (hab : a ≤ b)
    (ha : a ≤ text.length) :
    (text.take b).drop a ++ text.drop b = text.drop a := by
  conv_rhs => rw [← List.take_append_drop b text]
  rw [List.drop_append_of_le_length]
  rw [List.length_take]
  omega

/-- Main invariant of the `chunk_text` loop in the well-behaved regime
`100 ≤ maxLength` and `overlap + 99 ≤ maxLength`: starting from any
position `start < text.length` with fuel at least `text.length - start`,
the loop returns the accumulator followed by a non-empty list of chunks,
each of length at most `maxLength`, whose overlap-discarding concatenation
is exactly the suffix `text.drop start`. -/
lemma chunkLoop_clean (text : List Char) (maxLength overlap : Nat)
    (h100 : 100 ≤ maxLength) (hov : overlap + 99 ≤ maxLength) :
    ∀ (fuel start : Nat) (acc : List (List Char)), start < text.length →
      text.length - start ≤ fuel →
      ∃ cs, chunkLoop text maxLength overlap fuel (start : Int) acc = some (acc ++ cs) ∧
        cs ≠ [] ∧ (∀ c ∈ cs, c.length ≤ maxLength) ∧
        overlapJoin overlap cs = text.drop start := by
  intro fuel
  induction fuel with
  | zero => intro start acc h1 h2; omega
  | succ n ih =>
    intro start acc h1 h2
    rw [chunkLoop]
    rw [if_pos (by exact_mod_cast h1)]
    by_cases hend : text.length ≤ start + maxLength
    · rw [if_pos (by exact_mod_cast hend)]
      have hslice : pySlice text (start : Int) (text.length : Int) = text.drop start := by
        rw [pySlice_natCast, List.take_length]
      refine ⟨[text.drop start], by rw [hslice], by simp, ?_, rfl⟩
      intro c hc
      simp only [List.mem_singleton] at hc
      subst hc
      rw [List.length_drop]
      omega
    · push_neg at hend
      rw [if_neg (by omega)]
      obtain ⟨en, hen, hlb, hub⟩ := newEnd_bounds text maxLength start h100 hend
      have hstart1 : start + overlap + 1 ≤ en := by omega
      have henlt : en < text.length := by omega
      have hsub : newEnd text maxLength (start : Int) - (overlap : Int) = ((en - overlap : Nat) : Int) := by
        rw [hen]
        push_cast [Nat.cast_sub (by omega : overlap ≤ en)]
        ring
      rw [hsub, hen, pySlice_natCast]
      set chunk := (text.take en).drop start with hchunk
      obtain ⟨cs', hcs', hne', hlen', hjoin'⟩ :=
        ih (en - overlap) (acc ++ [chunk]) (by omega) (by omega)
      refine ⟨chunk :: cs', by rw [hcs']; simp, by simp, ?_, ?_⟩
      · intro c hc
        rcases List.mem_cons.mp hc with h | h
        · subst h
          rw [hchunk, List.length_drop, List.length_take]
          omega
        · exact hlen' c h
      · obtain ⟨c2, rest, hc2⟩ := List.exists_cons_of_ne_nil hne'
        rw [hc2] at hjoin' ⊢
        rw [overlapJoin, hjoin']
        have hclen : chunk.length = en - start := by
          rw [hchunk, List.length_drop, List.length_take]
          omega
        have htk : chunk.take (chunk.length - overlap) = (text.take (en - overlap)).drop start := by
          rw [hclen, hchunk, List.take_drop]
          congr 1
          rw [List.take_take]
          congr 1
          omega
        rw [htk]
        exact take_drop_append text start (en - overlap) (by omega) (by omega)

/-- On `divergingText` with `(max_length, overlap) = (100, 50)` the loop
state repeats exactly, so the loop returns `none` for every fuel: the
source `while` loop runs forever. -/
lemma chunkLoop_diverges :
    ∀ (fuel : Nat) (acc : List (List Char)),
      chunkLoop divergingText 100 50 fuel 0 acc = none := by
  have hstep : ∀ (n : Nat) (acc : List (List Char)),
      chunkLoop divergingText 100 50 (n + 1) 0 acc =
        chunkLoop divergingText 100 50 n 0 (acc ++ [pySlice divergingText 0 50]) := by
    intro n acc
    rw [chunkLoop]
    rw [if_pos (by decide), if_neg (by decide)]
    have h1 : newEnd divergingText 100 0 = 50 := by decide
    rw [h1]
    norm_num
  intro fuel
  induction fuel with
  | zero => intro acc; rfl
  | succ n ih =>
    intro acc
    rw [hstep, ih]

/-- Claim C1 (counterexample): for `text = divergingText`,
`max_length = 100`, `overlap = 50` — a valid pair with
`0 ≤ overlap < max_length` — `chunk_text` never returns a sequence of
chunks at all (the loop diverges), so no returned sequence satisfies the
claimed properties. -/
theorem chunk_text_no_result_cex :
    (∃ fuel cs, chunkTextF fuel divergingText 100 50 = some cs) = False := by
  refine eq_false ?_
  rintro ⟨fuel, cs, h⟩
  rw [chunkTextF, if_neg (by decide)] at h
  rw [chunkLoop_diverges fuel []] at h
  exact Option.noConfusion h

/-- Shared helper: the full well-behaved-regime description of
`chunk_text`, proved from the loop invariant. -/
lemma chunk_text_clean (text : List Char) (maxLength overlap : Nat)
    (h100 : 100 ≤ maxLength) (hov : overlap + 99 ≤ maxLength) :
    ∃ cs, chunk_text text maxLength overlap = some cs ∧ cs ≠ [] ∧
      (∀ c ∈ cs, c.length ≤ maxLength) ∧ overlapJoin overlap cs = text := by
  rw [chunk_text, chunkTextF]
  by_cases hshort : text.length ≤ maxLength
  · rw [if_pos hshort]
    exact ⟨[text], rfl, by simp, by simpa using hshort, rfl⟩
  · rw [if_neg hshort]
    push_neg at hshort
    have h0 : ((0 : Nat) : Int) = (0 : Int) := rfl
    obtain ⟨cs, hcs, hne, hlen, hjoin⟩ :=
      chunkLoop_clean text maxLength overlap h100 hov (text.length + 1) 0 []
        (by omega) (by omega)
    rw [h0] at hcs
    exact ⟨cs, by simpa using hcs, hne, hlen, by simpa using hjoin⟩

/-- Claim C1 (amended): whenever `100 ≤ max_length` (so that the
hard-coded 100-character boundary window fits in the current window) and
`overlap + 99 ≤ max_length` (so that boundary snapping cannot move the
next start backwards), `chunk_text` returns a non-empty list of chunks,
each of length at most `max_length`, and concatenating the chunks after
discarding the last `overlap` characters of every chunk except the last
reconstructs the text exactly. -/
theorem chunk_text_reconstructs (text : List Char) (maxLength overlap : Nat)
    (h100 : 100 ≤ maxLength) (hov : overlap + 99 ≤ maxLength) :
    ∃ cs, chunk_text text maxLength overlap = some cs ∧ cs ≠ [] ∧
      (∀ c ∈ cs, c.length ≤ maxLength) ∧ overlapJoin overlap cs = text :=
  chunk_text_clean text maxLength overlap h100 hov

/-- Witness for `chunk_text_reconstructs` at a concrete input. -/
theorem chunk_text_reconstructs_witness :
    ∃ cs, chunk_text (String.toList "hello") 100 1 = some cs ∧ cs ≠ [] ∧
      (∀ c ∈ cs, c.length ≤ 100) ∧ overlapJoin 1 cs = String.toList "hello" :=
  chunk_text_reconstructs (String.toList "hello") 100 1 (by decide) (by decide)

/-- Claim C5 (counterexample): `chunk_text` is not total — on
`divergingText` with the valid parameters `(100, 50)` the loop never
terminates (it returns `none` for every fuel bound). -/
theorem chunk_text_diverges_cex :
    (∃ fuel : Nat, (chunkTextF fuel divergingText 100 50).isSome = true) = False := by
  refine eq_false ?_
  rintro ⟨fuel, h⟩
  rw [chunkTextF, if_neg (by decide), chunkLoop_diverges fuel []] at h
  exact Bool.noConfusion h

/-- Claim C5 (amended): in the regime `100 ≤ max_length` and
`overlap + 99 ≤ max_length` every loop iteration advances `start` by at
least one character, so the loop terminates within `text.length + 1`
iterations and returns a finite chunk list. -/
theorem chunk_text_terminates (text : List Char) (maxLength overlap : Nat)
    (h100 : 100 ≤ maxLength) (hov : overlap + 99 ≤ maxLength) :
    (chunk_text text maxLength overlap).isSome = true := by
  obtain ⟨cs, hcs, -, -, -⟩ := chunk_text_clean text maxLength overlap h100 hov
  rw [hcs]
  rfl

/-- Witness for `chunk_text_terminates` at a concrete input where the
loop actually iterates (a 150-character text with window 100). -/
theorem chunk_text_terminates_witness :
    (chunk_text (List.replicate 150 'a') 100 1).isSome = true :=
  chunk_text_terminates (List.replicate 150 'a') 100 1 (by decide) (by decide)

lemma newEnd_zero (text : List Char) (maxLength : Nat) (h100 : 100 ≤ maxLength) :
    newEnd text maxLength ((0 : Nat) : Int) =
      if 0 < boundaryIdx text maxLength then
        ((maxLength - 100 : Nat) : Int) + boundaryIdx text maxLength + 1
      else (maxLength : Int) := by
  simp only [newEnd, boundaryIdx]
  have he : ((0 : Nat) : Int) + (maxLength : Int) - 100 = ((maxLength - 100 : Nat) : Int) := by
    omega
  have he2 : ((0 : Nat) : Int) + (maxLength : Int) = ((maxLength : Nat) : Int) := by omega
  rw [he, he2, pySlice_natCast]

/-- Claim C8 (amended): the boundary search window of `chunk_text` is the
last `100` characters of the current window — a hard-coded constant, not
the `overlap` parameter.  For the first window: if the right-most sentence
terminator of `text[max_length-100:max_length]` sits at a positive index
`b`, the first chunk is `text[0:max_length-100+b+1]` (the window is
shortened to end right after the terminator); if there is none (or it sits
at index 0), the first chunk is the full window `text[0:max_length]`. -/
theorem chunk_text_boundary_window (text : List Char) (maxLength overlap : Nat)
    (h100 : 100 ≤ maxLength) (hov : overlap + 99 ≤ maxLength)
    (hlen : maxLength < text.length) :
    (0 < boundaryIdx text maxLength →
      ∃ cs, chunk_text text maxLength overlap =
        some (text.take (maxLength - 100 + (boundaryIdx text maxLength).toNat + 1) :: cs)) ∧
    (boundaryIdx text maxLength ≤ 0 →
      ∃ cs, chunk_text text maxLength overlap = some (text.take maxLength :: cs)) := by
  obtain ⟨en, hen, hlb, hub⟩ := newEnd_bounds text maxLength 0 h100 (by omega)
  have hchar := newEnd_zero text maxLength h100
  rw [Nat.cast_zero] at hen hchar
  have main : ∃ cs, chunk_text text maxLength overlap = some (text.take en :: cs) := by
    rw [chunk_text, chunkTextF, if_neg (by omega)]
    rw [chunkLoop]
    rw [if_pos (by omega), if_neg (by omega)]
    have hsub : newEnd text maxLength 0 - (overlap : Int) = ((en - overlap : Nat) : Int) := by
      rw [hen]; omega
    have hslice : pySlice text 0 (newEnd text maxLength 0) = text.take en := by
      rw [hen, ← Nat.cast_zero, pySlice_natCast, List.drop_zero]
    rw [hsub, hslice]
    obtain ⟨cs', hcs', -, -, -⟩ :=
      chunkLoop_clean text maxLength overlap h100 hov text.length (en - overlap)
        (List.take en text :: []) (by omega) (by omega)
    exact ⟨cs', by rw [List.nil_append, hcs']; simp⟩
  constructor
  · intro hb
    have hval : en = maxLength - 100 + (boundaryIdx text maxLength).toNat + 1 := by
      rw [hchar, if_pos hb] at hen
      omega
    exact hval ▸ main
  · intro hb
    have hval : en = maxLength := by
      rw [hchar, if_neg (by omega)] at hen
      omega
    exact hval ▸ main

/-- Witness for `chunk_text_boundary_window`: a 150-character text whose
only terminator sits at index 50 of the first window; the first chunk ends
right after it. -/
theorem chunk_text_boundary_window_witness :
    ∃ cs, chunk_text (List.replicate 50 'a' ++ '.' :: List.replicate 99 'a') 100 1 =
      some ((List.replicate 50 'a' ++ '.' :: List.replicate 99 'a').take 51 :: cs) :=
  (chunk_text_boundary_window (List.replicate 50 'a' ++ '.' :: List.replicate 99 'a') 100 1
    (by decide) (by decide) (by decide)).1 (by decide)

/-- Claim C8 (counterexample): with `max_length = 300`, `overlap = 150`
the code does not search the last `overlap` characters of the window: the
terminator at index 170 lies within the last 150 characters of the first
window but outside its last 100 characters, so the code takes the full
300-character window while the claim's described behaviour would cut at
index 171. -/
theorem chunk_text_window_cex :
    chunk_text windowCexText 300 150 =
      some [windowCexText.take 300, windowCexText.drop 150] ∧
    chunkTextSpecC8 windowCexText 300 150 ≠ chunk_text windowCexText 300 150 := by
  constructor
  · decide
  · decide

lemma isPrefixOf_append_self (l t : List Char) : l.isPrefixOf (l ++ t) = true := by
  rw [List.isPrefixOf_iff_prefix]
  exact List.prefix_append l t

/-- Claim C3 (amended): if the OpenAI provider's generation fails (its
chat call raises, so its result carries the fixed error head) and the
context is non-empty, `generate_answer` invokes the Groq provider's
generation exactly once and returns its result, whatever it is — including
a Groq error message.  The fixed sentinel failure message is returned only
when the Groq provider itself is unavailable. -/
theorem generate_answer_fallback (e : List Char) (groqChat : ChatOutcome)
    (query : List Char) (chunks : List EmbeddingRecord) (hne : chunks ≠ []) :
    generateAnswerT (some (Except.error e)) (some groqChat) query chunks "auto" =
      ⟨groqGenerate groqChat query chunks, 1, 1⟩ ∧
    generateAnswerT (some (Except.error e)) none query chunks "auto" = ⟨failMsg, 1, 0⟩ := by
  obtain ⟨c, cs, rfl⟩ := List.exists_cons_of_ne_nil hne
  have hres : openaiGenerate (Except.error e) query (c :: cs) = openaiErrHead ++ e := rfl
  have hpre : openaiErrCheck.isPrefixOf (openaiGenerate (Except.error e) query (c :: cs)) = true := by
    rw [hres, openaiErrHead, List.append_assoc]
    exact isPrefixOf_append_self _ _
  constructor
  · rw [generateAnswerT, if_pos (Or.inl rfl)]
    simp only [hpre, if_true]
  · rw [generateAnswerT, if_pos (Or.inl rfl)]
    simp only [hpre, if_true]

/-- Witness for `generate_answer_fallback` at a concrete failing chain. -/
theorem generate_answer_fallback_witness :
    generateAnswerT (some (Except.error (String.toList "boom")))
        (some (Except.ok (String.toList "groq answer"))) (String.toList "q")
        [⟨"t", "c", []⟩] "auto" =
      ⟨String.toList "groq answer", 1, 1⟩ ∧
    generateAnswerT (some (Except.error (String.toList "boom"))) none
        (String.toList "q") [⟨"t", "c", []⟩] "auto" =
      ⟨failMsg, 1, 0⟩ :=
  generate_answer_fallback (String.toList "boom")
    (Except.ok (String.toList "groq answer")) (String.toList "q")
    [⟨"t", "c", []⟩] (by simp)

/-- Claim C3 (counterexample): when the chain is exhausted in the sense of
the spec's error-prefix convention — OpenAI's call raises and Groq's call
raises too, so Groq's reply carries the fixed Groq error head —
`generate_answer` returns Groq's error message, not the fixed sentinel
failure message. -/
theorem generate_answer_exhausted_cex :
    generate_answer (some (Except.error (String.toList "boom")))
        (some (Except.error (String.toList "quota"))) (String.toList "q")
        [⟨"t", "c", []⟩] "auto" =
      groqErrHead ++ String.toList "quota" ∧
    groqErrHead ++ String.toList "quota" ≠ failMsg := by
  constructor
  · decide
  · decide

/-- Claim C10 (confirmed): with an empty `context_chunks` list, both LLM
providers return the same fixed "no relevant information" message, without
making any chat-completion call. -/
theorem generate_empty_context_short_circuit (chat1 chat2 : ChatOutcome)
    (query1 query2 : List Char) :
    openaiGenerateT chat1 query1 [] = (noContextMsgOpenAI, 0) ∧
    groqGenerateT chat2 query2 [] = (noContextMsgGroq, 0) ∧
    noContextMsgOpenAI = noContextMsgGroq :=
  ⟨rfl, rfl, rfl⟩

/-- Claim C2 (counterexample): the local provider's `embed_batch` does not
preserve the batch length on failure — when the single batch `encode` call
raises, it returns the empty list, shortening a 1-element batch to 0. -/
theorem local_embed_batch_shortens_cex :
    (localEmbedBatch (fun _ => none) ["a"]).length = 0 ∧
    ["a"].length = 1 :=
  ⟨rfl, rfl⟩

/-- Claim C2 (amended): the OpenAI provider's `embed_batch` always returns
exactly one vector per input text, substituting the all-zero vector of
dimension 1536 at every position where the individual embedding call
failed; the local provider's `embed_batch` returns the model's batch
output when the single `encode` call succeeds, but the empty list — not a
padded batch — when it fails. -/
theorem embed_batch_spec (oracle : String → Option (List ℝ))
    (encodeOracle : List String → Option (List (List ℝ)))
    (texts : List String) :
    (openaiEmbedBatch oracle texts).length = texts.length ∧
    (∀ (i : Nat) (t : String), texts[i]? = some t → oracle t = none →
      (openaiEmbedBatch oracle texts)[i]? = some (List.replicate 1536 (0 : ℝ))) ∧
    (∀ vs, encodeOracle texts = some vs → localEmbedBatch encodeOracle texts = vs) ∧
    (encodeOracle texts = none → localEmbedBatch encodeOracle texts = []) := by
  refine ⟨by simp [openaiEmbedBatch], ?_, ?_, ?_⟩
  · intro i t ht hfail
    rw [openaiEmbedBatch, List.getElem?_map, ht]
    simp [openaiEmbedText, hfail]
  · intro vs hvs
    rw [localEmbedBatch, hvs]
  · intro hnone
    rw [localEmbedBatch, hnone]

/-- Witness for `embed_batch_spec`: a two-text batch whose second
embedding call fails gets the zero vector in second position. -/
theorem embed_batch_spec_witness :
    (openaiEmbedBatch (fun t => if t = "a" then some [(1 : ℝ)] else none) ["a", "b"]).length = 2 ∧
    (openaiEmbedBatch (fun t => if t = "a" then some [(1 : ℝ)] else none) ["a", "b"])[1]? =
      some (List.replicate 1536 (0 : ℝ)) ∧
    localEmbedBatch (fun _ => some [[(2 : ℝ)]]) ["a"] = [[(2 : ℝ)]] := by
  obtain ⟨h1, h2, h3, h4⟩ := embed_batch_spec
    (fun t => if t = "a" then some [(1 : ℝ)] else none)
    (fun _ => some [[(2 : ℝ)]]) ["a", "b"]
  exact ⟨h1, h2 1 "b" rfl (by simp), h3 [[(2 : ℝ)]] rfl⟩

/-- Claim C9 (counterexample): the local candidate is committed to without
any liveness probe — in `deadLocalEnv` its probe would fail, so under the
claim's described selection no provider would be yielded, yet the code
returns the local provider. -/
theorem auto_selection_no_local_probe_cex :
    getEmbeddingProviderAuto deadLocalEnv = some EmbProvider.localProv ∧
    getEmbeddingProviderAutoSpecC9 deadLocalEnv = none :=
  ⟨rfl, rfl⟩

/-- Claim C9 (amended): `auto` tries the remote candidate first and
liveness-probes it with `embed_text("test")` before committing; any remote
failure (missing/empty key, failed import, constructor exception, falsy
probe) falls through to the local candidate, which is committed to after a
successful constructor run with *no* probe; if the local constructor fails
or the dependency is missing, the selection yields no provider, and it
never raises (the model is a total function). -/
theorem auto_selection_spec (env : EmbEnv)
    (hkey : truthyKey env.openaiKey = true) :
    (env.openaiAvailable = true → env.openaiInit = Except.ok () →
      env.openaiProbeResult ≠ [] →
      getEmbeddingProviderAuto env = some EmbProvider.openaiProv) ∧
    (env.openaiAvailable = true → env.openaiInit = Except.ok () →
      env.openaiProbeResult = [] →
      getEmbeddingProviderAuto env = tryLocalProvider env) ∧
    (∀ e, env.openaiInit = Except.error e →
      getEmbeddingProviderAuto env = tryLocalProvider env) ∧
    (env.stAvailable = true → env.localInit = Except.ok () →
      tryLocalProvider env = some EmbProvider.localProv) ∧
    (env.stAvailable = false → tryLocalProvider env = none) ∧
    (∀ e, env.localInit = Except.error e → tryLocalProvider env = none) := by
  refine ⟨?_, ?_, ?_, ?_, ?_, ?_⟩
  · intro hav hinit hprobe
    rw [getEmbeddingProviderAuto, if_pos (by rw [hkey, hav]; rfl), hinit]
    rw [if_neg (by simpa [List.isEmpty_iff] using hprobe)]
  · intro hav hinit hprobe
    rw [getEmbeddingProviderAuto, if_pos (by rw [hkey, hav]; rfl), hinit]
    rw [if_pos (by simp [hprobe])]
  · intro e hinit
    by_cases hav : env.openaiAvailable = true
    · rw [getEmbeddingProviderAuto, if_pos (by rw [hkey, hav]; rfl), hinit]
    · rw [getEmbeddingProviderAuto, if_neg (by simp [hav])]
  · intro hst hinit
    rw [tryLocalProvider, if_pos hst, hinit]
  · intro hst
    rw [tryLocalProvider, if_neg (by simp [hst])]
  · intro e hinit
    by_cases hst : env.stAvailable = true
    · rw [tryLocalProvider, if_pos hst, hinit]
    · rw [tryLocalProvider, if_neg (by simp_all)]

/-- Witness for `auto_selection_spec` on a concrete healthy-remote
environment. -/
theorem auto_selection_spec_witness :
    getEmbeddingProviderAuto
      { openaiKey := some "sk", openaiAvailable := true, stAvailable := true
        openaiInit := Except.ok (), openaiProbeResult := [(1 : ℝ)]
        localInit := Except.ok (), localProbeResult := [(1 : ℝ)] } =
      some EmbProvider.openaiProv :=
  (auto_selection_spec _ (by decide)).1 rfl rfl (by simp)

/-- Claim C7 (counterexample): the indexing-path `load_embeddings` raises
on a malformed file instead of returning the empty sequence. -/
theorem load_embeddings_indexing_malformed_cex :
    load_embeddings_indexing StoreState.malformed = Except.error "JSONDecodeError" :=
  rfl

/-- Claim C7 (amended): the query-path `load_embeddings` returns the empty
sequence (not an error) both when the file is absent and when its contents
are malformed; the indexing-path `load_embeddings` returns the empty
sequence when the file is absent but propagates the parse error when the
contents are malformed.  Both return the stored records unchanged on a
well-formed file. -/
theorem load_embeddings_spec (records : List EmbeddingRecord) :
    load_embeddings_query StoreState.absent = Except.ok [] ∧
    load_embeddings_query StoreState.malformed = Except.ok [] ∧
    load_embeddings_query (StoreState.wellFormed records) = Except.ok records ∧
    load_embeddings_indexing StoreState.absent = Except.ok [] ∧
    load_embeddings_indexing (StoreState.wellFormed records) = Except.ok records :=
  ⟨rfl, rfl, rfl, rfl, rfl⟩

lemma sumSq_nonneg (a : List ℝ) : 0 ≤ sumSq a := by
  refine List.sum_nonneg ?_
  intro x hx
  obtain ⟨y, -, rfl⟩ := List.mem_map.mp hx
  exact mul_self_nonneg y

lemma sumSq_pos_of_exists_ne (a : List ℝ) (h : ∃ x ∈ a, x ≠ 0) : 0 < sumSq a := by
  induction a with
  | nil => simp at h
  | cons y t ih =>
    have hyy : sumSq (y :: t) = y * y + sumSq t := by simp [sumSq]
    rw [hyy]
    obtain ⟨x, hx, hxne⟩ := h
    rcases List.mem_cons.mp hx with rfl | hxt
    · have h1 : 0 < x * x := mul_self_pos.mpr hxne
      have h2 := sumSq_nonneg t
      linarith
    · have h1 := ih ⟨x, hxt, hxne⟩
      have h2 := mul_self_nonneg y
      linarith

lemma sumSq_eq_zero_of_all_zero (a : List ℝ) (h : ∀ x ∈ a, x = 0) : sumSq a = 0 := by
  induction a with
  | nil => simp [sumSq]
  | cons y t ih =>
    have hy : y = 0 := h y (List.mem_cons_self y t)
    have ht : sumSq t = 0 := ih fun x hx => h x (List.mem_cons_of_mem y hx)
    simp [sumSq, hy]
    simpa [sumSq] using ht

/-- Claim C6 (counterexample): on a zero vector the computation is *not*
rejected as an error — `np.dot` succeeds, the denominator is `0`, and the
division silently produces a non-finite float; the model returns
`Except.ok none`, not `Except.error`. -/
theorem cosine_zero_vector_not_error_cex :
    cosine_similarity_checked [(0 : ℝ), 0] [(0 : ℝ), 1] = Except.ok none := by
  rw [cosine_similarity_checked, if_pos (by simp)]
  have hz : normL2 [(0 : ℝ), 0] = 0 := by
    rw [normL2, sumSq_eq_zero_of_all_zero _ (by intro x hx; simp at hx; exact hx), Real.sqrt_zero]
  rw [floatDiv, hz, zero_mul, if_pos rfl]

/-- On the guarded domain — equal lengths, both vectors non-zero — the
checked similarity succeeds with the idealised value: the two models of
`cosine_similarity` agree there. -/
lemma cosine_checked_eq_ok (a b : List ℝ) (hlen : a.length = b.length)
    (ha : ∃ x ∈ a, x ≠ 0) (hb : ∃ y ∈ b, y ≠ 0) :
    cosine_similarity_checked a b = Except.ok (some (cosine_similarity a b)) := by
  have hpa : 0 < normL2 a := Real.sqrt_pos.mpr (sumSq_pos_of_exists_ne a ha)
  have hpb : 0 < normL2 b := Real.sqrt_pos.mpr (sumSq_pos_of_exists_ne b hb)
  have hden : normL2 a * normL2 b ≠ 0 := ne_of_gt (mul_pos hpa hpb)
  rw [cosine_similarity_checked, if_pos hlen, floatDiv, if_neg hden]
  rfl

/-- Claim C6 (amended): for equal-length vectors that are both non-zero,
the computation succeeds with exactly `dot(a,b) / (‖a‖·‖b‖)`; for
mismatched lengths `np.dot` raises (`Except.error`); but a zero vector is
*not* rejected — the division silently yields a non-finite value
(`Except.ok none`), never an error. -/
theorem cosine_similarity_spec (a b : List ℝ) :
    (a.length ≠ b.length →
      cosine_similarity_checked a b = Except.error "ValueError") ∧
    (a.length = b.length → (∃ x ∈ a, x ≠ 0) → (∃ y ∈ b, y ≠ 0) →
      cosine_similarity_checked a b = Except.ok (some (cosine_similarity a b)) ∧
      cosine_similarity a b = dotList a b / (normL2 a * normL2 b)) ∧
    (a.length = b.length → ((∀ x ∈ a, x = 0) ∨ (∀ y ∈ b, y = 0)) →
      cosine_similarity_checked a b = Except.ok none) := by
  refine ⟨?_, ?_, ?_⟩
  · intro hne
    rw [cosine_similarity_checked, if_neg hne]
  · intro hlen ha hb
    exact ⟨cosine_checked_eq_ok a b hlen ha hb, rfl⟩
  · intro hlen hzero
    rw [cosine_similarity_checked, if_pos hlen, floatDiv]
    rcases hzero with hza | hzb
    · have hz : normL2 a = 0 := by
        rw [normL2, sumSq_eq_zero_of_all_zero a hza, Real.sqrt_zero]
      rw [hz, zero_mul, if_pos rfl]
    · have hz : normL2 b = 0 := by
        rw [normL2, sumSq_eq_zero_of_all_zero b hzb, Real.sqrt_zero]
      rw [hz, mul_zero, if_pos rfl]

/-- Witness for `cosine_similarity_spec` at concrete vectors: identical
unit vectors have similarity `1`, a zero vector yields the non-error
`Except.ok none`, and mismatched lengths yield the error. -/
theorem cosine_similarity_spec_witness :
    cosine_similarity_checked [(1 : ℝ), 0] [(1 : ℝ), 0] = Except.ok (some 1) ∧
    cosine_similarity_checked [(0 : ℝ), 0] [(1 : ℝ), 0] = Except.ok none ∧
    cosine_similarity_checked [(1 : ℝ)] [(1 : ℝ), 0] = Except.error "ValueError" := by
  obtain ⟨hok, hval⟩ := (cosine_similarity_spec [(1 : ℝ), 0] [(1 : ℝ), 0]).2.1 rfl
    ⟨1, by simp, one_ne_zero⟩ ⟨1, by simp, one_ne_zero⟩
  refine ⟨?_, ?_, ?_⟩
  · rw [hok]
    have h1 : cosine_similarity [(1 : ℝ), 0] [(1 : ℝ), 0] = 1 := by
      rw [hval]
      have hd : dotList [(1 : ℝ), 0] [(1 : ℝ), 0] = 1 := by
        simp [dotList]
      have hn : normL2 [(1 : ℝ), 0] = 1 := by
        rw [normL2]
        have : sumSq [(1 : ℝ), 0] = 1 := by simp [sumSq]
        rw [this, Real.sqrt_one]
      rw [hd, hn, mul_one, div_one]
    rw [h1]
  · exact (cosine_similarity_spec [(0 : ℝ), 0] [(1 : ℝ), 0]).2.2 rfl
      (Or.inl (by intro x hx; simp at hx; exact hx))
  · exact (cosine_similarity_spec [(1 : ℝ)] [(1 : ℝ), 0]).1 (by simp)

lemma mem_scoreList_fst {q : List ℝ} {embeddings : List EmbeddingRecord}
    {x : ℝ × EmbeddingRecord} (hx : x ∈ scoreList q embeddings) :
    x.1 = cosine_similarity q x.2.embedding := by
  obtain ⟨e, -, rfl⟩ := List.mem_map.mp hx
  rfl

/-- On the guarded domain the faithful scoring loop raises nothing,
produces no `nan` key, and returns exactly the idealised scores. -/
lemma retrieveScoresChecked_eq_ok (q : List ℝ)
    (embeddings : List EmbeddingRecord) (hq : ∃ x ∈ q, x ≠ 0)
    (hlen : ∀ e ∈ embeddings, e.embedding.length = q.length)
    (hrec : ∀ e ∈ embeddings, ∃ x ∈ e.embedding, x ≠ 0) :
    retrieveScoresChecked q embeddings =
      Except.ok (embeddings.map fun e =>
        (some (cosine_similarity q e.embedding), e)) := by
  induction embeddings with
  | nil => rfl
  | cons e es ih =>
    rw [retrieveScoresChecked,
      cosine_checked_eq_ok q e.embedding
        (hlen e (List.mem_cons_self e es)).symm hq
        (hrec e (List.mem_cons_self e es)),
      ih (fun r hr => hlen r (List.mem_cons_of_mem e hr))
        (fun r hr => hrec r (List.mem_cons_of_mem e hr)),
      List.map_cons]

lemma filter_orderedInsert_pos (v : ℝ) (x : ℝ × EmbeddingRecord)
    (l : List (ℝ × EmbeddingRecord)) (hx : x.1 = v) :
    (List.orderedInsert simGE x l).filter (fun y => decide (y.1 = v)) =
      x :: l.filter (fun y => decide (y.1 = v)) := by
  induction l with
  | nil => simp [List.orderedInsert, hx]
  | cons b t ih =>
    rw [List.orderedInsert]
    by_cases h : simGE x b
    · rw [if_pos h]
      simp [hx]
    · rw [if_neg h]
      have hb : b.1 ≠ v := by
        rw [← hx]
        intro hcon
        exact h (le_of_eq hcon)
      simp only [List.filter_cons, decide_eq_true_eq]
      rw [if_neg (by simpa using hb), if_neg (by simpa using hb)]
      exact ih

lemma filter_orderedInsert_neg (v : ℝ) (x : ℝ × EmbeddingRecord)
    (l : List (ℝ × EmbeddingRecord)) (hx : x.1 ≠ v) :
    (List.orderedInsert simGE x l).filter (fun y => decide (y.1 = v)) =
      l.filter (fun y => decide (y.1 = v)) := by
  induction l with
  | nil => simp [List.orderedInsert, hx]
  | cons b t ih =>
    rw [List.orderedInsert]
    by_cases h : simGE x b
    · rw [if_pos h]
      simp only [List.filter_cons, decide_eq_true_eq]
      rw [if_neg (by simpa using hx)]
    · rw [if_neg h]
      simp only [List.filter_cons, decide_eq_true_eq]
      by_cases hb : b.1 = v
      · rw [if_pos (by simpa using hb), if_pos (by simpa using hb), ih]
      · rw [if_neg (by simpa using hb), if_neg (by simpa using hb), ih]

/-- Stability of the modelled sort: for every key value, filtering the
sorted list by that key gives exactly the input's elements with that key,
in their original order. -/
lemma filter_insertionSort_eq (v : ℝ) (l : List (ℝ × EmbeddingRecord)) :
    (List.insertionSort simGE l).filter (fun y => decide (y.1 = v)) =
      l.filter (fun y => decide (y.1 = v)) := by
  induction l with
  | nil => rfl
  | cons x t ih =>
    rw [List.insertionSort]
    by_cases hx : x.1 = v
    · rw [filter_orderedInsert_pos v x _ hx, ih]
      simp only [List.filter_cons, decide_eq_true_eq]
      rw [if_pos (by simpa using hx)]
    · rw [filter_orderedInsert_neg v x _ hx, ih]
      simp only [List.filter_cons, decide_eq_true_eq]
      rw [if_neg (by simpa using hx)]

/-- Claim C4 (counterexample): retrieval does *not* return a sorted
sequence for every query vector and record list — on a record whose
embedding has a different length from the query, the first scoring step of
the loop raises numpy's `ValueError`, which propagates out of
`retrieve_top_chunks` before any sorting, so no sequence is returned at
all. -/
theorem retrieve_mismatched_raises_cex :
    retrieveScoresChecked [(1 : ℝ), 0] [⟨"t", "c", [(1 : ℝ)]⟩] =
      Except.error "ValueError" := rfl

/-- Claim C4 (amended): `retrieve_top_chunks` returns `[]` on an empty
record list; and on the guarded domain — a non-zero query and records
whose embeddings match the query's length and are non-zero, so that the
source's scoring loop provably raises no `ValueError` and produces no
`nan` key (second conjunct, via the faithful `retrieveScoresChecked`) —
it returns exactly the first `min(top_k, len(records))` entries of one
fixed list `retrieveSortedAll`, sorted by non-increasing cosine similarity
to the query and, for every similarity value, preserving the input order
of the records attaining it (stable descending sort).  Outside that
domain the source raises (mismatched lengths) or sorts `nan` keys (zero
vectors), so no ordering claim holds there. -/
theorem retrieve_top_chunks_spec (q : List ℝ)
    (embeddings : List EmbeddingRecord) (k : Nat)
    (hq : ∃ x ∈ q, x ≠ 0)
    (hlen : ∀ e ∈ embeddings, e.embedding.length = q.length)
    (hrec : ∀ e ∈ embeddings, ∃ x ∈ e.embedding, x ≠ 0) :
    retrieve_top_chunks q [] k = [] ∧
    retrieveScoresChecked q embeddings =
      Except.ok (embeddings.map fun e =>
        (some (cosine_similarity q e.embedding), e)) ∧
    (retrieve_top_chunks q embeddings k).length = min k embeddings.length ∧
    retrieve_top_chunks q embeddings k = (retrieveSortedAll q embeddings).take k ∧
    (retrieveSortedAll q embeddings).Sorted
      (fun e1 e2 => cosine_similarity q e2.embedding ≤ cosine_similarity q e1.embedding) ∧
    (∀ v : ℝ, filterBySim q v (retrieveSortedAll q embeddings) =
      filterBySim q v embeddings) := by
  have htake : retrieve_top_chunks q embeddings k = (retrieveSortedAll q embeddings).take k := by
    match embeddings with
    | [] => simp [retrieve_top_chunks, retrieveSortedAll, scoreList, List.insertionSort]
    | e :: es =>
      rw [retrieve_top_chunks, retrieveSortedAll, List.map_take]
  refine ⟨rfl, retrieveScoresChecked_eq_ok q embeddings hq hlen hrec, ?_, htake, ?_, ?_⟩
  · rw [htake, retrieveSortedAll, List.length_take, List.length_map,
      List.length_insertionSort, scoreList, List.length_map]
  · rw [retrieveSortedAll, List.Sorted]
    rw [List.pairwise_map]
    refine List.Pairwise.imp_of_mem ?_ (List.sorted_insertionSort simGE (scoreList q embeddings))
    intro a b ha hb hr
    rw [← mem_scoreList_fst ((List.mem_insertionSort simGE).mp ha),
      ← mem_scoreList_fst ((List.mem_insertionSort simGE).mp hb)]
    exact hr
  · intro v
    rw [retrieveSortedAll, filterBySim, List.filter_map]
    have hcongr1 :
        (List.insertionSort simGE (scoreList q embeddings)).filter
            ((fun e => decide (cosine_similarity q e.embedding = v)) ∘ Prod.snd) =
          (List.insertionSort simGE (scoreList q embeddings)).filter
            (fun y => decide (y.1 = v)) := by
      refine List.filter_congr ?_
      intro x hx
      simp only [Function.comp_apply]
      rw [mem_scoreList_fst ((List.mem_insertionSort simGE).mp hx)]
    rw [hcongr1, filter_insertionSort_eq]
    have hcongr2 :
        (scoreList q embeddings).filter (fun y => decide (y.1 = v)) =
          (scoreList q embeddings).filter
            ((fun e => decide (cosine_similarity q e.embedding = v)) ∘ Prod.snd) := by
      refine List.filter_congr ?_
      intro x hx
      simp only [Function.comp_apply]
      rw [mem_scoreList_fst hx]
    rw [hcongr2, scoreList, List.filter_map, List.map_map, filterBySim]
    have hid : (Prod.snd ∘ fun e : EmbeddingRecord =>
        (cosine_similarity q e.embedding, e)) = id := rfl
    have hp : (((fun e : EmbeddingRecord =>
          decide (cosine_similarity q e.embedding = v)) ∘ Prod.snd) ∘
        fun e : EmbeddingRecord => (cosine_similarity q e.embedding, e)) =
        fun e : EmbeddingRecord => decide (cosine_similarity q e.embedding = v) := rfl
    rw [hid, hp, List.map_id]

/-- Witness for `retrieve_top_chunks_spec` on the concrete guarded
records `sampleRecords` with query `sampleQuery` and `top_k = 1`. -/
theorem retrieve_top_chunks_spec_witness :
    retrieve_top_chunks sampleQuery [] 1 = [] ∧
    retrieveScoresChecked sampleQuery sampleRecords =
      Except.ok (sampleRecords.map fun e =>
        (some (cosine_similarity sampleQuery e.embedding), e)) ∧
    (retrieve_top_chunks sampleQuery sampleRecords 1).length =
      min 1 sampleRecords.length ∧
    retrieve_top_chunks sampleQuery sampleRecords 1 =
      (retrieveSortedAll sampleQuery sampleRecords).take 1 ∧
    (retrieveSortedAll sampleQuery sampleRecords).Sorted
      (fun e1 e2 => cosine_similarity sampleQuery e2.embedding ≤
        cosine_similarity sampleQuery e1.embedding) ∧
    (∀ v : ℝ, filterBySim sampleQuery v
        (retrieveSortedAll sampleQuery sampleRecords) =
      filterBySim sampleQuery v sampleRecords) :=
  retrieve_top_chunks_spec sampleQuery sampleRecords 1
    ⟨1, by simp [sampleQuery], one_ne_zero⟩
    (by
      intro e he
      simp only [sampleRecords, List.mem_cons, List.not_mem_nil, or_false] at he
      rcases he with rfl | rfl <;> simp [sampleQuery])
    (by
      intro e he
      simp only [sampleRecords, List.mem_cons, List.not_mem_nil, or_false] at he
      rcases he with rfl | rfl
      · exact ⟨1, by simp, one_ne_zero⟩
      · exact ⟨1, by simp, one_ne_zero⟩)

end CaiNotion
